import Mathlib

/-!
Verification of the custom array methods (`customMap`, `customFilter`,
`customFind`, `customPush`, `customPop`) implemented as `Array.prototype`
extensions in this repository.

Shallow embedding: a JavaScript array is a `List (Option Value)` whose
length is the array's `length`; slot `none` is a hole (index not `in` the
array) and `some v` a present element.  Reading an index that is a hole or
out of range yields `Value.undefined`, as in JavaScript.  A callback
argument is either an invocable function (`Callback.fn`) or any other
value (`Callback.notFn`, the `typeof callback !== "function"` case).
Operations that can throw return `Except JSError _`.
-/

/-- A JavaScript runtime value, restricted to the primitives the test
suites of this repository exercise. `undefined` is a first-class value,
distinct from an array hole. -/
inductive Value where
  | undefined
  | vnull
  | vbool (b : Bool)
  | vint (n : Int)
  | vstr (s : String)
deriving DecidableEq, Repr

/-- JavaScript truthiness of a `Value`, as used by `if (shouldInclude)`
and `if (currentItem)` in the source. -/
def truthy : Value → Bool
  | .undefined => false
  | .vnull => false
  | .vbool b => b
  | .vint n => n != 0
  | .vstr s => s != ""

/-- The only error the five operations can raise: a `TypeError` carrying
the offending (non-invocable) callback value. -/
inductive JSError where
  | typeError (v : Value)
deriving DecidableEq, Repr

/-- A JavaScript array: slot `none` is a hole, `some v` a present
element; the list's length is the array's `length`. -/
abbrev JSArray := List (Option Value)

/-- A callback argument: either an invocable function (modelled as a pure
Lean function taking value, index and the source array) or a
non-invocable value.  The model has no `this`; callbacks are the
call-context-ignoring functions of the spec. -/
inductive Callback where
  | fn (f : Value → Nat → JSArray → Value)
  | notFn (v : Value)

/-- The read `arr[i]`: the stored value for a present index,
`undefined` for a hole or an out-of-range index. -/
def jsGet (arr : JSArray) (i : Nat) : Value :=
  match arr.get? i with
  | some (some v) => v
  | _ => Value.undefined

/-- The test `i in arr`: does index `i` hold a present element? -/
def inArr (arr : JSArray) (i : Nat) : Bool :=
  match arr.get? i with
  | some (some _) => true
  | _ => false

/-- The present (index, value) pairs of the slot list `slots`, whose
first slot sits at array index `i`, in ascending index order. -/
def presentFrom : Nat → List (Option Value) → List (Nat × Value)
  | _, [] => []
  | i, none :: rest => presentFrom (i + 1) rest
  | i, some v :: rest => (i, v) :: presentFrom (i + 1) rest

/-- All present (index, value) pairs of an array, ascending. -/
def presentList (arr : JSArray) : List (Nat × Value) :=
  presentFrom 0 arr

/-! ## `customMap` (src/src/array/map/map.ts, lines 48-81)

The loop `for (let index = 0; index < length; index++)` walking the slots
of `currentArray` is embedded as structural recursion on the slot list,
carrying the current `index`; `src` is the full array passed to the
callback as its third argument.  `if (index in currentArray)` is the case
split on the slot; the hole branch leaves a hole in the output
(`newArr = new Array(this.length)` starts all-holes and holes are never
assigned). -/

/-- Loop body of the first `customMap` (map.ts lines 63-78). -/
def mapGo (f : Value → Nat → JSArray → Value) (src : JSArray) :
    List (Option Value) → Nat → JSArray
  | [], _ => []
  | none :: rest, i => none :: mapGo f src rest (i + 1)
  | some v :: rest, i => some (f v i src) :: mapGo f src rest (i + 1)

/-- The first `customMap` (map.ts lines 48-81): reject a non-invocable
callback before the loop, else transform every present slot and keep
every hole. -/
def customMap (cb : Callback) (arr : JSArray) : Except JSError JSArray :=
  match cb with
  | .notFn v => .error (.typeError v)
  | .fn f => .ok (mapGo f arr arr 0)

/-- Indices at which the first `customMap` invokes its callback: exactly
the present indices its loop reaches (same loop as `mapGo`, recording
`index` at each invocation). -/
def mapCallsGo : List (Option Value) → Nat → List Nat
  | [], _ => []
  | none :: rest, i => mapCallsGo rest (i + 1)
  | some _ :: rest, i => i :: mapCallsGo rest (i + 1)

/-- Callback-invocation indices of the first `customMap` on `arr`. -/
def customMapCalls (arr : JSArray) : List Nat :=
  mapCallsGo arr 0

/-! Basic lemmas relating the loops to `presentFrom`. -/

theorem mapGo_length (f : Value → Nat → JSArray → Value) (src : JSArray) :
    ∀ (slots : List (Option Value)) (i : Nat),
      (mapGo f src slots i).length = slots.length := by
  intro slots
  induction slots with
  | nil => intro i; rfl
  | cons slot rest ih =>
    intro i
    cases slot <;> simp [mapGo, ih]

theorem mapGo_get? (f : Value → Nat → JSArray → Value) (src : JSArray) :
    ∀ (slots : List (Option Value)) (i k : Nat),
      (mapGo f src slots i).get? k =
        (slots.get? k).map (fun slot => slot.map (fun v => f v (i + k) src)) := by
  intro slots
  induction slots with
  | nil => intro i k; cases k <;> rfl
  | cons slot rest ih =>
    intro i k
    cases k with
    | zero => cases slot <;> rfl
    | succ k' =>
      cases slot <;>
        simpa [mapGo, show i + 1 + k' = i + (k' + 1) by omega] using ih (i + 1) k'

theorem mapCallsGo_eq_presentFrom :
    ∀ (slots : List (Option Value)) (i : Nat),
      mapCallsGo slots i = (presentFrom i slots).map Prod.fst := by
  intro slots
  induction slots with
  | nil => intro i; rfl
  | cons slot rest ih =>
    intro i
    cases slot <;> simp [mapCallsGo, presentFrom, ih]

/-! ## The second `customMap` (map.ts, lines 109-135)

This variant has no callback-validity check and no `index in currentArray`
test: every index from `0` to `length - 1` is visited, the read
`currentArray[index]` yields `undefined` on a hole, and the result is
`push`ed, so the output is dense.  Calling a non-invocable callback
throws a `TypeError` at the first loop iteration (so never on an empty
array). -/

/-- One slot's read `currentArray[index]`: the value, or `undefined`
for a hole. -/
def slotRead : Option Value → Value
  | some v => v
  | none => Value.undefined

/-- Loop body of the second `customMap` (map.ts lines 123-130). -/
def map2Go (f : Value → Nat → JSArray → Value) (src : JSArray) :
    List (Option Value) → Nat → JSArray
  | [], _ => []
  | slot :: rest, i => some (f (slotRead slot) i src) :: map2Go f src rest (i + 1)

/-- The second `customMap` (map.ts lines 109-135).  No validity check:
with a non-invocable callback the first iteration's call expression
throws; with no iterations (empty array) the call returns normally. -/
def customMap2 (cb : Callback) (arr : JSArray) : Except JSError JSArray :=
  match cb, arr with
  | _, [] => .ok []
  | .notFn v, _ :: _ => .error (.typeError v)
  | .fn f, slots@(_ :: _) => .ok (map2Go f arr slots 0)

/-- Indices at which the second `customMap` invokes its callback: every
index the loop visits, holes included. -/
def map2CallsGo : List (Option Value) → Nat → List Nat
  | [], _ => []
  | _ :: rest, i => i :: map2CallsGo rest (i + 1)

/-- Callback-invocation indices of the second `customMap` on `arr`. -/
def customMap2Calls (arr : JSArray) : List Nat :=
  map2CallsGo arr 0

/-! ## `customFilter` (src/src/array/filter/filter.ts, lines 10-37) -/

/-- Loop body of `customFilter` (filter.ts lines 22-34): skip holes,
invoke the predicate on present elements, `push` the element when the
result is truthy. -/
def filterGo (f : Value → Nat → JSArray → Value) (src : JSArray) :
    List (Option Value) → Nat → JSArray
  | [], _ => []
  | none :: rest, i => filterGo f src rest (i + 1)
  | some v :: rest, i =>
      if truthy (f v i src) then some v :: filterGo f src rest (i + 1)
      else filterGo f src rest (i + 1)

/-- `customFilter` (filter.ts lines 10-37): reject a non-invocable
callback before the loop, else keep the present elements whose predicate
result is truthy, in order. -/
def customFilter (cb : Callback) (arr : JSArray) : Except JSError JSArray :=
  match cb with
  | .notFn v => .error (.typeError v)
  | .fn f => .ok (filterGo f arr arr 0)

/-- Indices at which `customFilter` invokes its predicate: the present
indices (same loop as `filterGo`, recording `index` at each invocation). -/
def filterCallsGo : List (Option Value) → Nat → List Nat
  | [], _ => []
  | none :: rest, i => filterCallsGo rest (i + 1)
  | some _ :: rest, i => i :: filterCallsGo rest (i + 1)

/-- Predicate-invocation indices of `customFilter` on `arr`. -/
def customFilterCalls (arr : JSArray) : List Nat :=
  filterCallsGo arr 0

/-! ## `customFind` (src/src/main.ts, lines 81-121)

There is no callback-validity check: the callback is first touched at the
first present index, where calling a non-invocable value throws a
`TypeError`.  On a match the element is returned at once (early
termination); after the loop, `undefined`. -/

/-- Loop body of `customFind` (main.ts lines 95-116), with the trailing
`return undefined`. -/
def findGo (cb : Callback) (src : JSArray) :
    List (Option Value) → Nat → Except JSError Value
  | [], _ => .ok Value.undefined
  | none :: rest, i => findGo cb src rest (i + 1)
  | some v :: rest, i =>
      match cb with
      | .notFn w => .error (.typeError w)
      | .fn f =>
          if truthy (f v i src) then .ok v
          else findGo (.fn f) src rest (i + 1)

/-- `customFind` (main.ts lines 81-121). -/
def customFind (cb : Callback) (arr : JSArray) : Except JSError Value :=
  findGo cb arr arr 0

/-- Indices at which `customFind` invokes its predicate `f`: present
indices up to and including the first match (same loop as `findGo`,
recording `index` at each invocation; the early return stops the
recording). -/
def findCallsGo (f : Value → Nat → JSArray → Value) (src : JSArray) :
    List (Option Value) → Nat → List Nat
  | [], _ => []
  | none :: rest, i => findCallsGo f src rest (i + 1)
  | some v :: rest, i =>
      if truthy (f v i src) then [i]
      else i :: findCallsGo f src rest (i + 1)

/-- Predicate-invocation indices of `customFind f` on `arr`. -/
def customFindCalls (f : Value → Nat → JSArray → Value) (arr : JSArray) :
    List Nat :=
  findCallsGo f arr arr 0

/-! ## `customPush` (src/unnamed/part_002, lines 272-290)

Each iteration executes `currentArray[currentArray.length] = args[index]`:
an assignment at the current `length` appends one present slot and grows
`length` by one. -/

/-- Loop of `customPush` (part_002 lines 281-285), one append per
argument. -/
def pushLoop : JSArray → List Value → JSArray
  | arr, [] => arr
  | arr, v :: rest => pushLoop (arr ++ [some v]) rest

/-- `customPush`: run the append loop, return the new `length` together
with the mutated array (the post-state of `this`). -/
def customPush (arr : JSArray) (args : List Value) : Nat × JSArray :=
  let final := pushLoop arr args
  (final.length, final)

/-! ## `customPop` (src/unnamed/part_002, lines 47-62)

`this[this.length - 1]` is the `jsGet` read (so a hole yields
`undefined`); `this.length--` truncates the last slot. -/

/-- `customPop`: the removed element (or `undefined`) together with the
mutated array (the post-state of `this`). -/
def customPop (arr : JSArray) : Value × JSArray :=
  if arr.length > 0 then (jsGet arr (arr.length - 1), arr.dropLast)
  else (Value.undefined, arr)

/-! ## State-passing renderings of the read-only traversals

To state the frame property (the source array is unchanged by
`customMap`, `customFilter`, `customFind`) non-vacuously, each loop is
also rendered as a fold over the visited indices `0 .. length-1`
(`length` is cached before each loop in the source) on a state that
carries the `this` array explicitly; every read targets the state's
array and every write targets the loop's own accumulator, exactly as in
the source. -/

/-- One `customMap` iteration on state `(this-array, newArr)`: the hole
test and read target the state's array; the only write is
`newArr[index] = ...`. -/
def mapStep (f : Value → Nat → JSArray → Value) (s : JSArray × JSArray)
    (i : Nat) : JSArray × JSArray :=
  if inArr s.1 i then (s.1, s.2.set i (some (f (jsGet s.1 i) i s.1))) else s

/-- `customMap` as a state-passing loop; the first component of the
result is the post-state of `this`.  A non-invocable callback throws
before the loop runs. -/
def customMapRun (cb : Callback) (arr : JSArray) : JSArray × JSArray :=
  match cb with
  | .notFn _ => (arr, List.replicate arr.length none)
  | .fn f => (List.range arr.length).foldl (mapStep f)
      (arr, List.replicate arr.length none)

/-- One `customFilter` iteration on state `(this-array, newArr)`: skip a
hole, else test the predicate and `push` onto the accumulator. -/
def filterStep (f : Value → Nat → JSArray → Value) (s : JSArray × JSArray)
    (i : Nat) : JSArray × JSArray :=
  if inArr s.1 i then
    (if truthy (f (jsGet s.1 i) i s.1) then (s.1, s.2 ++ [some (jsGet s.1 i)])
     else s)
  else s

/-- `customFilter` as a state-passing loop. -/
def customFilterRun (cb : Callback) (arr : JSArray) : JSArray × JSArray :=
  match cb with
  | .notFn _ => (arr, [])
  | .fn f => (List.range arr.length).foldl (filterStep f) (arr, [])

/-- One `customFind` iteration on state `(this-array, outcome)`; a set
outcome models the early `return` (or the thrown `TypeError` of a
non-invocable callback at the first present index): later iterations do
not run. -/
def findStep (cb : Callback) (s : JSArray × Option (Except JSError Value))
    (i : Nat) : JSArray × Option (Except JSError Value) :=
  match s.2 with
  | some _ => s
  | none =>
      if inArr s.1 i then
        match cb with
        | .notFn w => (s.1, some (.error (.typeError w)))
        | .fn f =>
            if truthy (f (jsGet s.1 i) i s.1) then (s.1, some (.ok (jsGet s.1 i)))
            else s
      else s

/-- `customFind` as a state-passing loop. -/
def customFindRun (cb : Callback) (arr : JSArray) :
    JSArray × Option (Except JSError Value) :=
  (List.range arr.length).foldl (findStep cb) (arr, none)

/-! ## Fuel-indexed renderings of the loops

Termination made explicit: each loop is re-run on a fuel budget, one
unit per iteration, `none` on fuel exhaustion.  The theorems show a
budget equal to the input size always suffices. -/

/-- `mapGo` on fuel. -/
def mapGoFuel (f : Value → Nat → JSArray → Value) (src : JSArray) :
    Nat → List (Option Value) → Nat → Option JSArray
  | _, [], _ => some []
  | 0, _ :: _, _ => none
  | fuel + 1, none :: rest, i =>
      (mapGoFuel f src fuel rest (i + 1)).map (fun tail => none :: tail)
  | fuel + 1, some v :: rest, i =>
      (mapGoFuel f src fuel rest (i + 1)).map (fun tail => some (f v i src) :: tail)

/-- `filterGo` on fuel. -/
def filterGoFuel (f : Value → Nat → JSArray → Value) (src : JSArray) :
    Nat → List (Option Value) → Nat → Option JSArray
  | _, [], _ => some []
  | 0, _ :: _, _ => none
  | fuel + 1, none :: rest, i => filterGoFuel f src fuel rest (i + 1)
  | fuel + 1, some v :: rest, i =>
      if truthy (f v i src) then
        (filterGoFuel f src fuel rest (i + 1)).map (fun tail => some v :: tail)
      else filterGoFuel f src fuel rest (i + 1)

/-- `findGo` on fuel. -/
def findGoFuel (cb : Callback) (src : JSArray) :
    Nat → List (Option Value) → Nat → Option (Except JSError Value)
  | _, [], _ => some (.ok Value.undefined)
  | 0, _ :: _, _ => none
  | fuel + 1, none :: rest, i => findGoFuel cb src fuel rest (i + 1)
  | fuel + 1, some v :: rest, i =>
      match cb with
      | .notFn w => some (.error (.typeError w))
      | .fn f =>
          if truthy (f v i src) then some (.ok v)
          else findGoFuel (.fn f) src fuel rest (i + 1)

/-- `pushLoop` on fuel, one unit per appended argument. -/
def pushLoopFuel : Nat → JSArray → List Value → Option JSArray
  | _, arr, [] => some arr
  | 0, _, _ :: _ => none
  | fuel + 1, arr, v :: rest => pushLoopFuel fuel (arr ++ [some v]) rest

/-- `customPop` on fuel.  The body is loop-free, so any budget,
including zero, completes. -/
def customPopFuel (_fuel : Nat) (arr : JSArray) : Option (Value × JSArray) :=
  some (customPop arr)

/-! ## Characterization lemmas for the loops -/

theorem filterGo_eq_presentFrom (f : Value → Nat → JSArray → Value)
    (src : JSArray) :
    ∀ (slots : List (Option Value)) (i : Nat),
      filterGo f src slots i =
        ((presentFrom i slots).filter
          (fun iv => truthy (f iv.2 iv.1 src))).map (fun iv => some iv.2) := by
  intro slots
  induction slots with
  | nil => intro i; rfl
  | cons slot rest ih =>
    intro i
    cases slot with
    | none => simpa [filterGo, presentFrom] using ih (i + 1)
    | some v =>
      by_cases h : truthy (f v i src) = true <;>
        simp [filterGo, presentFrom, h, ih (i + 1), List.filter_cons]

theorem filterCallsGo_eq_presentFrom :
    ∀ (slots : List (Option Value)) (i : Nat),
      filterCallsGo slots i = (presentFrom i slots).map Prod.fst := by
  intro slots
  induction slots with
  | nil => intro i; rfl
  | cons slot rest ih =>
    intro i
    cases slot <;> simp [filterCallsGo, presentFrom, ih]

theorem findGo_fn_eq_presentFrom (f : Value → Nat → JSArray → Value)
    (src : JSArray) :
    ∀ (slots : List (Option Value)) (i : Nat),
      findGo (.fn f) src slots i =
        Except.ok
          (match (presentFrom i slots).find?
              (fun iv => truthy (f iv.2 iv.1 src)) with
           | some iv => iv.2
           | none => Value.undefined) := by
  intro slots
  induction slots with
  | nil => intro i; rfl
  | cons slot rest ih =>
    intro i
    cases slot with
    | none => simpa [findGo, presentFrom] using ih (i + 1)
    | some v =>
      by_cases h : truthy (f v i src) = true <;>
        simp [findGo, presentFrom, h, ih (i + 1), List.find?]

theorem findCallsGo_eq_presentFrom (f : Value → Nat → JSArray → Value)
    (src : JSArray) :
    ∀ (slots : List (Option Value)) (i : Nat),
      findCallsGo f src slots i =
        (match (presentFrom i slots).find?
            (fun iv => truthy (f iv.2 iv.1 src)) with
         | some iv =>
             ((presentFrom i slots).takeWhile
               (fun iv => !truthy (f iv.2 iv.1 src))).map Prod.fst ++ [iv.1]
         | none => (presentFrom i slots).map Prod.fst) := by
  intro slots
  induction slots with
  | nil => intro i; rfl
  | cons slot rest ih =>
    intro i
    cases slot with
    | none => simpa [findCallsGo, presentFrom] using ih (i + 1)
    | some v =>
      by_cases h : truthy (f v i src) = true
      · simp [findCallsGo, presentFrom, h, List.find?, List.takeWhile]
      · rcases hrest : (presentFrom (i + 1) rest).find?
            (fun iv => truthy (f iv.2 iv.1 src)) with _ | iv <;>
          simp [findCallsGo, presentFrom, h, List.find?, List.takeWhile,
            ih (i + 1), hrest]

theorem findGo_notFn_eq (c : Value) (src : JSArray) :
    ∀ (slots : List (Option Value)) (i : Nat),
      findGo (.notFn c) src slots i =
        (if slots.any Option.isSome then Except.error (JSError.typeError c)
         else Except.ok Value.undefined) := by
  intro slots
  induction slots with
  | nil => intro i; rfl
  | cons slot rest ih =>
    intro i
    cases slot <;> simp [findGo, ih]

theorem pushLoop_eq_append :
    ∀ (args : List Value) (arr : JSArray),
      pushLoop arr args = arr ++ args.map some := by
  intro args
  induction args with
  | nil => intro arr; simp [pushLoop]
  | cons v rest ih => intro arr; simp [pushLoop, ih]

theorem map2Go_length (f : Value → Nat → JSArray → Value) (src : JSArray) :
    ∀ (slots : List (Option Value)) (i : Nat),
      (map2Go f src slots i).length = slots.length := by
  intro slots
  induction slots with
  | nil => intro i; rfl
  | cons slot rest ih => intro i; simp [map2Go, ih]

theorem map2Go_get? (f : Value → Nat → JSArray → Value) (src : JSArray) :
    ∀ (slots : List (Option Value)) (i k : Nat),
      (map2Go f src slots i).get? k =
        (slots.get? k).map (fun slot => some (f (slotRead slot) (i + k) src)) := by
  intro slots
  induction slots with
  | nil => intro i k; cases k <;> rfl
  | cons slot rest ih =>
    intro i k
    cases k with
    | zero => rfl
    | succ k' =>
      simpa [map2Go, show i + 1 + k' = i + (k' + 1) by omega] using ih (i + 1) k'

theorem map2Go_all_isSome (f : Value → Nat → JSArray → Value) (src : JSArray) :
    ∀ (slots : List (Option Value)) (i : Nat),
      (map2Go f src slots i).all Option.isSome = true := by
  intro slots
  induction slots with
  | nil => intro i; rfl
  | cons slot rest ih => intro i; simp [map2Go, ih]

theorem mapGo_eq_map2Go_of_dense (f : Value → Nat → JSArray → Value)
    (src : JSArray) :
    ∀ (slots : List (Option Value)) (i : Nat),
      (∀ s ∈ slots, Option.isSome s = true) →
      mapGo f src slots i = map2Go f src slots i := by
  intro slots
  induction slots with
  | nil => intro i _; rfl
  | cons slot rest ih =>
    intro i h
    cases slot with
    | none => simpa using h none (List.mem_cons_self _ _)
    | some v =>
      simp [mapGo, map2Go, slotRead,
        ih (i + 1) (fun s hs => h s (List.mem_cons_of_mem _ hs))]

theorem map2CallsGo_eq_range' :
    ∀ (slots : List (Option Value)) (i : Nat),
      map2CallsGo slots i = List.range' i slots.length := by
  intro slots
  induction slots with
  | nil => intro i; rfl
  | cons slot rest ih => intro i; simp [map2CallsGo, ih, List.range'_succ]

/-! ## Fuel sufficiency and fold invariance lemmas -/

theorem mapGoFuel_complete (f : Value → Nat → JSArray → Value) (src : JSArray) :
    ∀ (slots : List (Option Value)) (fuel i : Nat), slots.length ≤ fuel →
      mapGoFuel f src fuel slots i = some (mapGo f src slots i) := by
  intro slots
  induction slots with
  | nil => intro fuel i _; cases fuel <;> rfl
  | cons slot rest ih =>
    intro fuel i h
    cases fuel with
    | zero => simp at h
    | succ fuel' =>
      have h' : rest.length ≤ fuel' := by simpa using h
      cases slot <;> simp [mapGoFuel, mapGo, ih fuel' (i + 1) h']

theorem filterGoFuel_complete (f : Value → Nat → JSArray → Value)
    (src : JSArray) :
    ∀ (slots : List (Option Value)) (fuel i : Nat), slots.length ≤ fuel →
      filterGoFuel f src fuel slots i = some (filterGo f src slots i) := by
  intro slots
  induction slots with
  | nil => intro fuel i _; cases fuel <;> rfl
  | cons slot rest ih =>
    intro fuel i h
    cases fuel with
    | zero => simp at h
    | succ fuel' =>
      have h' : rest.length ≤ fuel' := by simpa using h
      cases slot with
      | none => simp [filterGoFuel, filterGo, ih fuel' (i + 1) h']
      | some v =>
        by_cases ht : truthy (f v i src) = true <;>
          simp [filterGoFuel, filterGo, ht, ih fuel' (i + 1) h']

theorem findGoFuel_complete (cb : Callback) (src : JSArray) :
    ∀ (slots : List (Option Value)) (fuel i : Nat), slots.length ≤ fuel →
      findGoFuel cb src fuel slots i = some (findGo cb src slots i) := by
  intro slots
  induction slots with
  | nil => intro fuel i _; cases fuel <;> rfl
  | cons slot rest ih =>
    intro fuel i h
    cases fuel with
    | zero => simp at h
    | succ fuel' =>
      have h' : rest.length ≤ fuel' := by simpa using h
      cases slot with
      | none => simp [findGoFuel, findGo, ih fuel' (i + 1) h']
      | some v =>
        cases cb with
        | notFn w => rfl
        | fn f =>
          by_cases ht : truthy (f v i src) = true <;>
            simp [findGoFuel, findGo, ht, ih fuel' (i + 1) h']

theorem pushLoopFuel_complete :
    ∀ (args : List Value) (fuel : Nat) (arr : JSArray), args.length ≤ fuel →
      pushLoopFuel fuel arr args = some (pushLoop arr args) := by
  intro args
  induction args with
  | nil => intro fuel arr _; cases fuel <;> rfl
  | cons v rest ih =>
    intro fuel arr h
    cases fuel with
    | zero => simp at h
    | succ fuel' =>
      have h' : rest.length ≤ fuel' := by simpa using h
      simp [pushLoopFuel, pushLoop, ih fuel' (arr ++ [some v]) h']

theorem foldl_fst_fixed {α β : Type} (step : α × β → Nat → α × β)
    (h : ∀ s i, (step s i).1 = s.1) :
    ∀ (l : List Nat) (s : α × β), (l.foldl step s).1 = s.1 := by
  intro l
  induction l with
  | nil => intro s; rfl
  | cons x xs ih => intro s; rw [List.foldl_cons, ih, h]

theorem mapStep_fst (f : Value → Nat → JSArray → Value) :
    ∀ (s : JSArray × JSArray) (i : Nat), (mapStep f s i).1 = s.1 := by
  intro s i
  unfold mapStep
  split <;> rfl

theorem filterStep_fst (f : Value → Nat → JSArray → Value) :
    ∀ (s : JSArray × JSArray) (i : Nat), (filterStep f s i).1 = s.1 := by
  intro s i
  unfold filterStep
  split <;> [split <;> rfl; rfl]

theorem findStep_fst (cb : Callback) :
    ∀ (s : JSArray × Option (Except JSError Value)) (i : Nat),
      (findStep cb s i).1 = s.1 := by
  intro s i
  unfold findStep
  rcases s with ⟨src, done⟩
  cases done with
  | some r => rfl
  | none =>
    dsimp only
    split
    · cases cb with
      | notFn w => rfl
      | fn f => dsimp only; split <;> rfl
    · rfl

/-! ## Claim theorems -/

/-- C1: for every sequence and pure transform, `customMap` returns a new
sequence of the same length; every present index `i` of the source maps
to `f(S[i], i, S)` at index `i` of the output; every hole maps to a
hole; and the callback is invoked exactly at the present indices, never
at a hole. -/
theorem customMap_spec (f : Value → Nat → JSArray → Value) (arr : JSArray) :
    ∃ out, customMap (Callback.fn f) arr = Except.ok out ∧
      out.length = arr.length ∧
      (∀ i v, arr.get? i = some (some v) → out.get? i = some (some (f v i arr))) ∧
      (∀ i, arr.get? i = some none → out.get? i = some none) ∧
      customMapCalls arr = (presentList arr).map Prod.fst := by
  refine ⟨mapGo f arr arr 0, rfl, mapGo_length f arr arr 0, ?_, ?_,
    mapCallsGo_eq_presentFrom arr 0⟩
  · intro i v hv
    have h := mapGo_get? f arr arr 0 i
    rw [hv] at h
    simpa using h
  · intro i hv
    have h := mapGo_get? f arr arr 0 i
    rw [hv] at h
    simpa using h

/-- Witness for C1 at a concrete sparse array and the identity
callback. -/
theorem customMap_spec_witness :
    (([some (Value.vint 1), none] : JSArray).get? 0 = some (some (Value.vint 1))) ∧
    (([some (Value.vint 1), none] : JSArray).get? 1 = some none) ∧
    (∃ out,
      customMap (Callback.fn (fun v _ _ => v)) [some (Value.vint 1), none] =
        Except.ok out ∧
      out.length = 2 ∧ out.get? 0 = some (some (Value.vint 1)) ∧
      out.get? 1 = some none) := by
  obtain ⟨out, hout, hlen, hpres, hhole, _⟩ :=
    customMap_spec (fun v _ _ => v) [some (Value.vint 1), none]
  exact ⟨rfl, rfl, out, hout, by simpa using hlen,
    hpres 0 (Value.vint 1) rfl, hhole 1 rfl⟩

/-- C2: `customFilter` returns exactly the present elements whose
predicate result is truthy, in original relative order; the predicate is
invoked exactly at the present indices; with a constantly-true predicate
the output is exactly the present elements of the source. -/
theorem customFilter_spec (f : Value → Nat → JSArray → Value) (arr : JSArray) :
    customFilter (Callback.fn f) arr =
      Except.ok (((presentList arr).filter
        (fun iv => truthy (f iv.2 iv.1 arr))).map (fun iv => some iv.2)) ∧
    customFilterCalls arr = (presentList arr).map Prod.fst ∧
    customFilter (Callback.fn (fun _ _ _ => Value.vbool true)) arr =
      Except.ok ((presentList arr).map (fun iv => some iv.2)) := by
  refine ⟨?_, filterCallsGo_eq_presentFrom arr 0, ?_⟩
  · simpa [customFilter] using
      congrArg (Except.ok : JSArray → Except JSError JSArray)
        (filterGo_eq_presentFrom f arr arr 0)
  · have h := filterGo_eq_presentFrom (fun _ _ _ => Value.vbool true) arr arr 0
    simp only [truthy, List.filter_true] at h
    simpa [customFilter] using
      congrArg (Except.ok : JSArray → Except JSError JSArray) h

/-- C3: `customFind` returns exactly what a linear scan of the present
(index, value) pairs returns first (the element of the first truthy
pair, else `undefined`, in particular `undefined` on the empty array);
the predicate is invoked exactly at the present indices up to and
including the first match, so holes are skipped and no invocation
follows a match. -/
theorem customFind_spec (f : Value → Nat → JSArray → Value) (arr : JSArray) :
    customFind (Callback.fn f) arr =
      Except.ok
        (match (presentList arr).find? (fun iv => truthy (f iv.2 iv.1 arr)) with
         | some iv => iv.2
         | none => Value.undefined) ∧
    customFindCalls f arr =
      (match (presentList arr).find? (fun iv => truthy (f iv.2 iv.1 arr)) with
       | some iv =>
           ((presentList arr).takeWhile
             (fun iv => !truthy (f iv.2 iv.1 arr))).map Prod.fst ++ [iv.1]
       | none => (presentList arr).map Prod.fst) ∧
    customFind (Callback.fn f) [] = Except.ok Value.undefined := by
  exact ⟨findGo_fn_eq_presentFrom f arr arr 0,
    findCallsGo_eq_presentFrom f arr arr 0, rfl⟩

/-- C4: `customPush` appends its arguments in order at consecutive
indices starting at the old length, the final length (also the return
value) is the old length plus the argument count, and with no arguments
the array is unchanged and the old length is returned. -/
theorem customPush_spec (arr : JSArray) (args : List Value) :
    (customPush arr args).1 = arr.length + args.length ∧
    (customPush arr args).2 = arr ++ args.map some ∧
    (∀ k v, args.get? k = some v →
      (customPush arr args).2.get? (arr.length + k) = some (some v)) ∧
    customPush arr [] = (arr.length, arr) := by
  have h2 : (customPush arr args).2 = arr ++ args.map some := by
    simp [customPush, pushLoop_eq_append]
  refine ⟨by simp [customPush, pushLoop_eq_append], h2, ?_,
    by simp [customPush, pushLoop]⟩
  intro k v hk
  rw [h2, List.get?_append_right (by omega),
    show arr.length + k - arr.length = k by omega, List.get?_map, hk]
  rfl

/-- Witness for C4: pushing two values onto a one-element array. -/
theorem customPush_spec_witness :
    (([Value.vint 4, Value.vint 5] : List Value).get? 1 = some (Value.vint 5)) ∧
    (customPush [some (Value.vint 1)] [Value.vint 4, Value.vint 5]).2.get? 2 =
      some (some (Value.vint 5)) ∧
    (customPush [some (Value.vint 1)] [Value.vint 4, Value.vint 5]).1 = 3 := by
  obtain ⟨h1, _, h3, _⟩ :=
    customPush_spec [some (Value.vint 1)] [Value.vint 4, Value.vint 5]
  exact ⟨rfl, h3 1 (Value.vint 5) rfl, by simpa using h1⟩

/-- C5: on a non-empty array `customPop` returns the element stored at
the last index (`undefined` when that index is a hole), shortens the
array by exactly one slot while keeping every earlier slot, and on an
empty array returns `undefined` and changes nothing. -/
theorem customPop_spec (arr : JSArray) :
    (∀ v, arr.get? (arr.length - 1) = some (some v) → (customPop arr).1 = v) ∧
    (arr.length > 0 → arr.get? (arr.length - 1) = some none →
      (customPop arr).1 = Value.undefined) ∧
    (arr.length > 0 → (customPop arr).2.length = arr.length - 1 ∧
      ∀ j, j < arr.length - 1 → (customPop arr).2.get? j = arr.get? j) ∧
    (arr.length = 0 → customPop arr = (Value.undefined, arr)) := by
  refine ⟨?_, ?_, ?_, ?_⟩
  · intro v hv
    have hlt : arr.length - 1 < arr.length := (List.get?_eq_some.1 hv).1
    have hpos : arr.length > 0 := by omega
    have hget : jsGet arr (arr.length - 1) = v := by unfold jsGet; rw [hv]
    rw [customPop, if_pos hpos]
    exact hget
  · intro hpos hv
    have hget : jsGet arr (arr.length - 1) = Value.undefined := by
      unfold jsGet; rw [hv]
    rw [customPop, if_pos hpos]
    exact hget
  · intro hpos
    refine ⟨by simp [customPop, hpos], ?_⟩
    intro j hj
    simp only [customPop, hpos, if_pos]
    rw [List.dropLast_eq_take, List.get?_take hj]
  · intro h0
    simp [customPop, h0]

/-- Witness for C5: popping a two-element array and the empty array. -/
theorem customPop_spec_witness :
    (([some (Value.vint 1), some (Value.vint 3)] : JSArray).get? 1 =
      some (some (Value.vint 3))) ∧
    (customPop [some (Value.vint 1), some (Value.vint 3)]).1 = Value.vint 3 ∧
    (customPop [some (Value.vint 1), some (Value.vint 3)]).2.length = 1 ∧
    customPop ([] : JSArray) = (Value.undefined, []) := by
  obtain ⟨h1, _, h3, _⟩ := customPop_spec [some (Value.vint 1), some (Value.vint 3)]
  obtain ⟨_, _, _, he4⟩ := customPop_spec ([] : JSArray)
  exact ⟨rfl, h1 (Value.vint 3) rfl, (h3 (by decide)).1, he4 rfl⟩

/-- C6: with a non-invocable callback, both `customMap` and
`customFilter` raise the invalid-callback `TypeError` on every array
(so also before any element could be visited), and in the state-passing
rendering the source array is untouched. -/
theorem invalid_callback_spec (c : Value) (arr : JSArray) :
    customMap (Callback.notFn c) arr = Except.error (JSError.typeError c) ∧
    customFilter (Callback.notFn c) arr = Except.error (JSError.typeError c) ∧
    (customMapRun (Callback.notFn c) arr).1 = arr ∧
    (customFilterRun (Callback.notFn c) arr).1 = arr := by
  exact ⟨rfl, rfl, rfl, rfl⟩

/-- Counterexample to C7 as stated: on the empty array `customFind`
with a non-invocable callback returns `undefined` normally instead of
raising the invalid-callback `TypeError`. -/
theorem customFind_invalid_empty_counterexample :
    customFind (Callback.notFn (Value.vstr "not callable")) ([] : JSArray) =
      Except.ok Value.undefined ∧
    customFind (Callback.notFn (Value.vstr "not callable")) ([] : JSArray) ≠
      Except.error (JSError.typeError (Value.vstr "not callable")) := by
  exact ⟨rfl, fun h => by simp [customFind, findGo] at h⟩

/-- C7 (amended): `customFind` performs no callback-validity check, so
with a non-invocable callback it raises the `TypeError` only when the
array has at least one present element (the call expression at the first
present index throws); on an array with no present element, the empty
array included, it returns `undefined` without raising. -/
theorem customFind_invalid_callback (c : Value) (arr : JSArray) :
    (arr.any Option.isSome = true →
      customFind (Callback.notFn c) arr = Except.error (JSError.typeError c)) ∧
    (arr.any Option.isSome = false →
      customFind (Callback.notFn c) arr = Except.ok Value.undefined) := by
  have h := findGo_notFn_eq c arr arr 0
  constructor
  · intro ha
    simpa [customFind, ha] using h
  · intro ha
    simpa [customFind, ha] using h

/-- Witness for C7 (amended): a sparse array with one present element,
and an all-holes array. -/
theorem customFind_invalid_callback_witness :
    (([none, some (Value.vint 1)] : JSArray).any Option.isSome = true ∧
      customFind (Callback.notFn (Value.vstr "x")) [none, some (Value.vint 1)] =
        Except.error (JSError.typeError (Value.vstr "x"))) ∧
    (([none] : JSArray).any Option.isSome = false ∧
      customFind (Callback.notFn (Value.vstr "x")) [none] =
        Except.ok Value.undefined) := by
  refine ⟨⟨by decide, ?_⟩, ⟨by decide, ?_⟩⟩
  · exact (customFind_invalid_callback (Value.vstr "x")
      [none, some (Value.vint 1)]).1 (by decide)
  · exact (customFind_invalid_callback (Value.vstr "x") [none]).2 (by decide)

/-- C8: in the state-passing rendering of the three read-only
traversals, the source array after the call is the source array before
the call, for every callback (invocable or not). -/
theorem readonly_frame_spec (cb : Callback) (arr : JSArray) :
    (customMapRun cb arr).1 = arr ∧
    (customFilterRun cb arr).1 = arr ∧
    (customFindRun cb arr).1 = arr := by
  refine ⟨?_, ?_, ?_⟩
  · cases cb with
    | notFn v => rfl
    | fn f => exact foldl_fst_fixed (mapStep f) (mapStep_fst f) _ _
  · cases cb with
    | notFn v => rfl
    | fn f => exact foldl_fst_fixed (filterStep f) (filterStep_fst f) _ _
  · exact foldl_fst_fixed (findStep cb) (findStep_fst cb) _ _

/-- C9: every loop completes within a fuel budget equal to its input
size — `customMap`, `customFilter` and `customFind` within the array
length, `customPush` within the argument count, and `customPop` with no
iterations at all — so each of the five operations runs to completion on
every finite input. -/
theorem ops_terminate_spec (cb : Callback) (f : Value → Nat → JSArray → Value)
    (arr : JSArray) (args : List Value) :
    mapGoFuel f arr arr.length arr 0 = some (mapGo f arr arr 0) ∧
    filterGoFuel f arr arr.length arr 0 = some (filterGo f arr arr 0) ∧
    findGoFuel cb arr arr.length arr 0 = some (findGo cb arr arr 0) ∧
    pushLoopFuel args.length arr args = some (pushLoop arr args) ∧
    customPopFuel 0 arr = some (customPop arr) := by
  exact ⟨mapGoFuel_complete f arr arr arr.length 0 le_rfl,
    filterGoFuel_complete f arr arr arr.length 0 le_rfl,
    findGoFuel_complete cb arr arr arr.length 0 le_rfl,
    pushLoopFuel_complete args args.length arr le_rfl,
    rfl⟩

/-- C10: the two `customMap` definitions agree on every hole-free array
(for every context-ignoring function callback); the second is not
equivalent to the first in general: it always yields a dense array of
the source's length, invoking the callback at every index — on a hole it
passes `undefined` — as the concrete sparse input shows, and only the
first rejects a non-invocable callback before iteration (the second
accepts it on the empty array and throws only once an iteration runs). -/
theorem customMap_variants_spec (f : Value → Nat → JSArray → Value)
    (c : Value) (arr : JSArray) :
    (arr.all Option.isSome = true →
      customMap (Callback.fn f) arr = customMap2 (Callback.fn f) arr) ∧
    (∃ out, customMap2 (Callback.fn f) arr = Except.ok out ∧
      out.length = arr.length ∧ out.all Option.isSome = true ∧
      (∀ i, arr.get? i = some none →
        out.get? i = some (some (f Value.undefined i arr)))) ∧
    customMap2Calls arr = List.range arr.length ∧
    (customMap (Callback.fn (fun v _ _ => v)) [some (Value.vint 1), none] =
        Except.ok [some (Value.vint 1), none] ∧
      customMap2 (Callback.fn (fun v _ _ => v)) [some (Value.vint 1), none] =
        Except.ok [some (Value.vint 1), some Value.undefined] ∧
      ([some (Value.vint 1), none] : JSArray) ≠
        [some (Value.vint 1), some Value.undefined]) ∧
    customMap (Callback.notFn c) arr = Except.error (JSError.typeError c) ∧
    customMap2 (Callback.notFn c) ([] : JSArray) = Except.ok [] ∧
    (arr ≠ [] → customMap2 (Callback.notFn c) arr =
      Except.error (JSError.typeError c)) := by
  refine ⟨?_, ?_, ?_, ⟨rfl, rfl, by decide⟩, rfl, rfl, ?_⟩
  · intro h
    cases arr with
    | nil => rfl
    | cons s rest =>
      simp only [customMap, customMap2]
      exact congrArg (Except.ok : JSArray → Except JSError JSArray)
        (mapGo_eq_map2Go_of_dense f _ _ 0
          (fun x hx => List.all_eq_true.mp h x hx))
  · cases arr with
    | nil =>
      refine ⟨[], rfl, rfl, rfl, ?_⟩
      intro i hi
      simp at hi
    | cons s rest =>
      refine ⟨map2Go f (s :: rest) (s :: rest) 0, rfl,
        map2Go_length f _ _ 0, map2Go_all_isSome f _ _ 0, ?_⟩
      intro i hi
      have h := map2Go_get? f (s :: rest) (s :: rest) 0 i
      rw [hi] at h
      simpa [slotRead] using h
  · exact (map2CallsGo_eq_range' arr 0).trans (List.range_eq_range' _).symm
  · intro h
    cases arr with
    | nil => exact absurd rfl h
    | cons s rest => rfl

/-- Witness for C10: a dense array for the agreement clause, a sparse
array for the hole clause, a non-empty array for the during-iteration
throw of the second definition. -/
theorem customMap_variants_spec_witness :
    (([some (Value.vint 1), some (Value.vint 2)] : JSArray).all
        Option.isSome = true ∧
      customMap (Callback.fn (fun v _ _ => v))
          [some (Value.vint 1), some (Value.vint 2)] =
        customMap2 (Callback.fn (fun v _ _ => v))
          [some (Value.vint 1), some (Value.vint 2)]) ∧
    (([some (Value.vint 1), none] : JSArray).get? 1 = some none ∧
      (∃ out, customMap2 (Callback.fn (fun v _ _ => v))
          [some (Value.vint 1), none] = Except.ok out ∧
        out.get? 1 = some (some Value.undefined))) ∧
    (([none] : JSArray) ≠ [] ∧
      customMap2 (Callback.notFn (Value.vstr "x")) [none] =
        Except.error (JSError.typeError (Value.vstr "x"))) := by
  obtain ⟨hd, _, _, _, _, _, _⟩ := customMap_variants_spec (fun v _ _ => v)
    (Value.vstr "x") [some (Value.vint 1), some (Value.vint 2)]
  obtain ⟨_, ⟨out, hout, _, _, hhole⟩, _, _, _, _, _⟩ :=
    customMap_variants_spec (fun v _ _ => v) (Value.vstr "x")
      [some (Value.vint 1), none]
  obtain ⟨_, _, _, _, _, _, hne2⟩ := customMap_variants_spec (fun v _ _ => v)
    (Value.vstr "x") [none]
  exact ⟨⟨by decide, hd (by decide)⟩, ⟨rfl, out, hout, hhole 1 rfl⟩,
    ⟨by decide, hne2 (by decide)⟩⟩

/-! ## Agreement of the state-passing loops with the direct embeddings

The `Run` definitions used for the frame property compute the same
results as the structural embeddings, so the frame theorem speaks about
the very functions verified by the functional-correctness theorems. -/

theorem foldl_pair {α β : Type} (g : α → β → Nat → β)
    (step : α × β → Nat → α × β)
    (hstep : ∀ s i, step s i = (s.1, g s.1 s.2 i)) :
    ∀ (l : List Nat) (a : α) (b : β),
      l.foldl step (a, b) = (a, l.foldl (fun b i => g a b i) b) := by
  intro l
  induction l with
  | nil => intro a b; rfl
  | cons x xs ih =>
    intro a b
    rw [List.foldl_cons, List.foldl_cons, hstep]
    exact ih a (g a b x)

theorem mapStep_pair (f : Value → Nat → JSArray → Value) :
    ∀ (s : JSArray × JSArray) (i : Nat),
      mapStep f s i =
        (s.1, if inArr s.1 i then s.2.set i (some (f (jsGet s.1 i) i s.1))
              else s.2) := by
  intro s i
  unfold mapStep
  by_cases h : inArr s.1 i = true
  · rw [if_pos h, if_pos h]
  · rw [if_neg h, if_neg h]

theorem filterStep_pair (f : Value → Nat → JSArray → Value) :
    ∀ (s : JSArray × JSArray) (i : Nat),
      filterStep f s i =
        (s.1, if inArr s.1 i then
                (if truthy (f (jsGet s.1 i) i s.1) then s.2 ++ [some (jsGet s.1 i)]
                 else s.2)
              else s.2) := by
  intro s i
  unfold filterStep
  by_cases h : inArr s.1 i = true
  · rw [if_pos h, if_pos h]
    by_cases ht : truthy (f (jsGet s.1 i) i s.1) = true
    · rw [if_pos ht, if_pos ht]
    · rw [if_neg ht, if_neg ht]
  · rw [if_neg h, if_neg h]

theorem findStep_pair (cb : Callback) :
    ∀ (s : JSArray × Option (Except JSError Value)) (i : Nat),
      findStep cb s i =
        (s.1,
          match s.2 with
          | some r => some r
          | none =>
              if inArr s.1 i then
                match cb with
                | .notFn w => some (.error (.typeError w))
                | .fn f =>
                    if truthy (f (jsGet s.1 i) i s.1) then some (.ok (jsGet s.1 i))
                    else none
              else none) := by
  intro s i
  unfold findStep
  rcases s with ⟨src, done⟩
  cases done with
  | some r => rfl
  | none =>
    dsimp only
    by_cases h : inArr src i = true
    · rw [if_pos h, if_pos h]
      cases cb with
      | notFn w => rfl
      | fn f =>
        dsimp only
        by_cases ht : truthy (f (jsGet src i) i src) = true
        · rw [if_pos ht, if_pos ht]
        · rw [if_neg ht, if_neg ht]
    · rw [if_neg h, if_neg h]

theorem mapFold_getElem? (f : Value → Nat → JSArray → Value) (arr : JSArray) :
    ∀ (m i : Nat) (out : JSArray) (j : Nat),
      ((List.range' i m).foldl
        (fun b x => if inArr arr x then b.set x (some (f (jsGet arr x) x arr))
                    else b) out)[j]? =
        if i ≤ j ∧ j < i + m ∧ inArr arr j = true then
          (if j < out.length then some (some (f (jsGet arr j) j arr)) else none)
        else out[j]? := by
  intro m
  induction m with
  | zero =>
    intro i out j
    have hcond : ¬(i ≤ j ∧ j < i + 0 ∧ inArr arr j = true) := by
      rintro ⟨h1, h2, -⟩
      omega
    rw [if_neg hcond]
    rfl
  | succ m ih =>
    intro i out j
    rw [List.range'_succ, List.foldl_cons, ih (i + 1)]
    by_cases hin : inArr arr i = true
    · rw [if_pos hin]
      by_cases hj1 : i + 1 ≤ j ∧ j < i + 1 + m ∧ inArr arr j = true
      · obtain ⟨ha, hb, hc⟩ := hj1
        rw [if_pos ⟨ha, hb, hc⟩, if_pos (⟨by omega, by omega, hc⟩ :
          i ≤ j ∧ j < i + (m + 1) ∧ inArr arr j = true)]
        simp
      · rw [if_neg hj1]
        by_cases hji : j = i
        · rw [hji]
          rw [List.getElem?_set,
            if_pos (⟨le_rfl, by omega, hin⟩ :
              i ≤ i ∧ i < i + (m + 1) ∧ inArr arr i = true)]
          simp
        · rw [List.getElem?_set_ne (fun h => hji h.symm)]
          have hcond : ¬(i ≤ j ∧ j < i + (m + 1) ∧ inArr arr j = true) := by
            rintro ⟨h1, h2, h3⟩
            rcases Nat.eq_or_lt_of_le h1 with h | h
            · exact hji h.symm
            · exact hj1 ⟨h, by omega, h3⟩
          rw [if_neg hcond]
    · rw [if_neg hin]
      by_cases hj1 : i + 1 ≤ j ∧ j < i + 1 + m ∧ inArr arr j = true
      · obtain ⟨ha, hb, hc⟩ := hj1
        rw [if_pos ⟨ha, hb, hc⟩, if_pos (⟨by omega, by omega, hc⟩ :
          i ≤ j ∧ j < i + (m + 1) ∧ inArr arr j = true)]
      · rw [if_neg hj1]
        have hcond : ¬(i ≤ j ∧ j < i + (m + 1) ∧ inArr arr j = true) := by
          rintro ⟨h1, h2, h3⟩
          rcases Nat.eq_or_lt_of_le h1 with h | h
          · exact hin (h ▸ h3)
          · exact hj1 ⟨h, by omega, h3⟩
        rw [if_neg hcond]

theorem jsGet_of_get? {arr : JSArray} {j : Nat} {v : Value}
    (h : arr.get? j = some (some v)) : jsGet arr j = v := by
  unfold jsGet
  rw [h]

theorem inArr_eq_true_iff {arr : JSArray} {j : Nat} :
    inArr arr j = true ↔ ∃ v, arr.get? j = some (some v) := by
  unfold inArr
  rcases h : arr.get? j with _ | slot
  · simp
  · cases slot <;> simp

theorem inArr_false_of_lt {arr : JSArray} {j : Nat} (hj : j < arr.length)
    (h : inArr arr j = false) : arr.get? j = some none := by
  unfold inArr at h
  rcases hget : arr.get? j with _ | slot
  · have := List.get?_eq_none.mp hget
    omega
  · cases slot with
    | none => rfl
    | some v => rw [hget] at h; simp at h

theorem customMapRun_out (f : Value → Nat → JSArray → Value) (arr : JSArray) :
    (customMapRun (Callback.fn f) arr).2 = mapGo f arr arr 0 := by
  have hpair := foldl_pair
    (fun a b i => if inArr a i then b.set i (some (f (jsGet a i) i a)) else b)
    (mapStep f) (mapStep_pair f) (List.range arr.length) arr
    (List.replicate arr.length none)
  have hsnd : (customMapRun (Callback.fn f) arr).2 =
      (List.range arr.length).foldl
        (fun b i => if inArr arr i then b.set i (some (f (jsGet arr i) i arr))
                    else b)
        (List.replicate arr.length none) :=
    congrArg Prod.snd hpair
  rw [hsnd, List.range_eq_range']
  apply List.ext_getElem?
  intro j
  rw [mapFold_getElem? f arr arr.length 0 (List.replicate arr.length none) j]
  have hmap := mapGo_get? f arr arr 0 j
  simp only [List.get?_eq_getElem?, Nat.zero_add] at hmap
  rw [hmap]
  by_cases hj : j < arr.length
  · by_cases hin : inArr arr j = true
    · obtain ⟨v, hv⟩ := inArr_eq_true_iff.mp hin
      have hv' : arr[j]? = some (some v) := by
        rw [← List.get?_eq_getElem?]
        exact hv
      rw [hv', if_pos ⟨Nat.zero_le j, by omega, hin⟩,
        if_pos (by simpa using hj : j < (List.replicate arr.length
          (none : Option Value)).length), jsGet_of_get? hv]
      rfl
    · have hv : arr.get? j = some none :=
        inArr_false_of_lt hj (by simpa using hin)
      have hv' : arr[j]? = some none := by
        rw [← List.get?_eq_getElem?]
        exact hv
      have hcond : ¬(0 ≤ j ∧ j < 0 + arr.length ∧ inArr arr j = true) := by
        rintro ⟨-, -, h3⟩
        exact hin h3
      rw [hv', if_neg hcond, List.getElem?_replicate, if_pos hj]
      rfl
  · have hv' : arr[j]? = none := by
      rw [← List.get?_eq_getElem?]
      exact List.get?_eq_none.mpr (by omega)
    have hcond : ¬(0 ≤ j ∧ j < 0 + arr.length ∧ inArr arr j = true) := by
      rintro ⟨-, h2, -⟩
      omega
    rw [hv', if_neg hcond, List.getElem?_replicate, if_neg (by omega)]
    rfl

theorem presentFrom_append :
    ∀ (xs ys : List (Option Value)) (i : Nat),
      presentFrom i (xs ++ ys) =
        presentFrom i xs ++ presentFrom (i + xs.length) ys := by
  intro xs
  induction xs with
  | nil => intro ys i; simp [presentFrom]
  | cons slot rest ih =>
    intro ys i
    cases slot <;>
      simp [presentFrom, ih,
        show i + 1 + rest.length = i + (rest.length + 1) by omega]

theorem filterFold_take (f : Value → Nat → JSArray → Value) (arr : JSArray) :
    ∀ (k : Nat),
      (List.range k).foldl
        (fun b i => if inArr arr i then
            (if truthy (f (jsGet arr i) i arr) then b ++ [some (jsGet arr i)]
             else b)
          else b) [] =
      ((presentFrom 0 (arr.take k)).filter
        (fun iv => truthy (f iv.2 iv.1 arr))).map (fun iv => some iv.2) := by
  intro k
  induction k with
  | zero => rfl
  | succ k ih =>
    rw [List.range_succ, List.foldl_append, List.foldl_cons, List.foldl_nil, ih]
    by_cases hk : k < arr.length
    · rw [List.take_succ]
      cases hslot : arr.get? k with
      | none =>
        have := List.get?_eq_none.mp hslot
        omega
      | some slot =>
        have hslot' : arr[k]? = some slot := by
          rw [← List.get?_eq_getElem?]
          exact hslot
        rw [hslot']
        cases slot with
        | none =>
          have hin : inArr arr k = false := by unfold inArr; rw [hslot]
          rw [if_neg (by simp [hin])]
          rw [presentFrom_append]
          simp [presentFrom]
        | some v =>
          have hin : inArr arr k = true := by unfold inArr; rw [hslot]
          have hget : jsGet arr k = v := jsGet_of_get? hslot
          rw [if_pos hin, hget, presentFrom_append]
          have hlen : (arr.take k).length = k := by
            simp [List.length_take]
            omega
          rw [hlen]
          simp only [Option.toList_some, presentFrom, List.filter_append,
            List.map_append]
          by_cases ht : truthy (f v k arr) = true <;>
            simp [ht, List.filter_cons, presentFrom]
    · have hin : inArr arr k = false := by
        unfold inArr
        rw [List.get?_eq_none.mpr (by omega)]
      rw [if_neg (by simp [hin]),
        List.take_of_length_le (by omega : arr.length ≤ k),
        List.take_of_length_le (by omega : arr.length ≤ k + 1)]

theorem customFilterRun_out (f : Value → Nat → JSArray → Value)
    (arr : JSArray) :
    (customFilterRun (Callback.fn f) arr).2 = filterGo f arr arr 0 := by
  have hpair := foldl_pair
    (fun a b i => if inArr a i then
        (if truthy (f (jsGet a i) i a) then b ++ [some (jsGet a i)] else b)
      else b)
    (filterStep f) (filterStep_pair f) (List.range arr.length) arr []
  have hsnd : (customFilterRun (Callback.fn f) arr).2 =
      (List.range arr.length).foldl
        (fun b i => if inArr arr i then
            (if truthy (f (jsGet arr i) i arr) then b ++ [some (jsGet arr i)]
             else b)
          else b) [] :=
    congrArg Prod.snd hpair
  rw [hsnd, filterFold_take f arr arr.length, List.take_length,
    filterGo_eq_presentFrom]

theorem findFold_take_fn (f : Value → Nat → JSArray → Value) (arr : JSArray) :
    ∀ (k : Nat),
      (List.range k).foldl
        (fun b i => match b with
          | some r => some r
          | none =>
              if inArr arr i then
                (if truthy (f (jsGet arr i) i arr)
                 then some (Except.ok (jsGet arr i)) else none)
              else none) (none : Option (Except JSError Value)) =
      (match (presentFrom 0 (arr.take k)).find?
          (fun iv => truthy (f iv.2 iv.1 arr)) with
       | some iv => some (Except.ok iv.2)
       | none => none) := by
  intro k
  induction k with
  | zero => rfl
  | succ k ih =>
    rw [List.range_succ, List.foldl_append, List.foldl_cons, List.foldl_nil, ih]
    by_cases hk : k < arr.length
    · rw [List.take_succ]
      cases hslot : arr.get? k with
      | none =>
        have := List.get?_eq_none.mp hslot
        omega
      | some slot =>
        have hslot' : arr[k]? = some slot := by
          rw [← List.get?_eq_getElem?]
          exact hslot
        rw [hslot']
        have hlen : (arr.take k).length = k := by
          simp [List.length_take]
          omega
        cases slot with
        | none =>
          have hin : inArr arr k = false := by unfold inArr; rw [hslot]
          cases hfind : (presentFrom 0 (arr.take k)).find?
              (fun iv => truthy (f iv.2 iv.1 arr)) with
          | none =>
            simp [hfind, hin, presentFrom_append, presentFrom,
              List.find?_append]
          | some iv =>
            simp [hfind, presentFrom_append, presentFrom, List.find?_append]
        | some v =>
          have hin : inArr arr k = true := by unfold inArr; rw [hslot]
          have hget : jsGet arr k = v := jsGet_of_get? hslot
          cases hfind : (presentFrom 0 (arr.take k)).find?
              (fun iv => truthy (f iv.2 iv.1 arr)) with
          | none =>
            rw [presentFrom_append, List.find?_append, hfind, hlen,
              Option.none_or]
            simp only [presentFrom, Option.toList_some, List.find?]
            by_cases ht : truthy (f v k arr) = true
            · simp [hin, hget, ht]
            · simp [hin, hget, ht]
          | some iv =>
            rw [presentFrom_append, List.find?_append, hfind]
            simp [hfind]
    · have htk : arr.take (k + 1) = arr.take k := by
        rw [List.take_of_length_le (by omega : arr.length ≤ k + 1),
          List.take_of_length_le (by omega : arr.length ≤ k)]
      have hin : inArr arr k = false := by
        unfold inArr
        rw [List.get?_eq_none.mpr (by omega)]
      rw [htk]
      cases hfind : (presentFrom 0 (arr.take k)).find?
          (fun iv => truthy (f iv.2 iv.1 arr)) with
      | none => simp [hfind, hin]
      | some iv => simp [hfind]

theorem findFold_take_notFn (c : Value) (arr : JSArray) :
    ∀ (k : Nat),
      (List.range k).foldl
        (fun b i => match b with
          | some r => some r
          | none => if inArr arr i
              then some (Except.error (JSError.typeError c)) else none)
        (none : Option (Except JSError Value)) =
      (if (arr.take k).any Option.isSome
       then some (Except.error (JSError.typeError c)) else none) := by
  intro k
  induction k with
  | zero => rfl
  | succ k ih =>
    rw [List.range_succ, List.foldl_append, List.foldl_cons, List.foldl_nil, ih]
    by_cases hk : k < arr.length
    · rw [List.take_succ]
      cases hslot : arr.get? k with
      | none =>
        have := List.get?_eq_none.mp hslot
        omega
      | some slot =>
        have hslot' : arr[k]? = some slot := by
          rw [← List.get?_eq_getElem?]
          exact hslot
        rw [hslot']
        cases slot with
        | none =>
          have hin : inArr arr k = false := by unfold inArr; rw [hslot]
          by_cases hany : (arr.take k).any Option.isSome = true <;>
            simp [hany, hin]
        | some v =>
          have hin : inArr arr k = true := by unfold inArr; rw [hslot]
          by_cases hany : (arr.take k).any Option.isSome = true <;>
            simp [hany, hin]
    · have htk : arr.take (k + 1) = arr.take k := by
        rw [List.take_of_length_le (by omega : arr.length ≤ k + 1),
          List.take_of_length_le (by omega : arr.length ≤ k)]
      have hin : inArr arr k = false := by
        unfold inArr
        rw [List.get?_eq_none.mpr (by omega)]
      rw [htk]
      by_cases hany : (arr.take k).any Option.isSome = true <;>
        simp [hany, hin]

theorem customFindRun_out (cb : Callback) (arr : JSArray) :
    (match (customFindRun cb arr).2 with
     | some r => r
     | none => Except.ok Value.undefined) = customFind cb arr := by
  cases cb with
  | fn f =>
    have hpair := foldl_pair
      (fun a b i => match b with
        | some r => some r
        | none =>
            if inArr a i then
              (if truthy (f (jsGet a i) i a)
               then some (Except.ok (jsGet a i)) else none)
            else none)
      (findStep (Callback.fn f)) (findStep_pair (Callback.fn f))
      (List.range arr.length) arr none
    have hsnd : (customFindRun (Callback.fn f) arr).2 =
        (List.range arr.length).foldl
          (fun b i => match b with
            | some r => some r
            | none =>
                if inArr arr i then
                  (if truthy (f (jsGet arr i) i arr)
                   then some (Except.ok (jsGet arr i)) else none)
                else none) none :=
      congrArg Prod.snd hpair
    rw [hsnd, findFold_take_fn f arr arr.length, List.take_length,
      show customFind (Callback.fn f) arr = findGo (Callback.fn f) arr arr 0
        from rfl,
      findGo_fn_eq_presentFrom f arr arr 0]
    cases hfind : (presentFrom 0 arr).find?
        (fun iv => truthy (f iv.2 iv.1 arr)) <;> simp [hfind]
  | notFn c =>
    have hpair := foldl_pair
      (fun a b i => match b with
        | some r => some r
        | none => if inArr a i
            then some (Except.error (JSError.typeError c)) else none)
      (findStep (Callback.notFn c)) (findStep_pair (Callback.notFn c))
      (List.range arr.length) arr none
    have hsnd : (customFindRun (Callback.notFn c) arr).2 =
        (List.range arr.length).foldl
          (fun b i => match b with
            | some r => some r
            | none => if inArr arr i
                then some (Except.error (JSError.typeError c)) else none)
          none :=
      congrArg Prod.snd hpair
    rw [hsnd, findFold_take_notFn c arr arr.length, List.take_length,
      show customFind (Callback.notFn c) arr =
        findGo (Callback.notFn c) arr arr 0 from rfl,
      findGo_notFn_eq c arr arr 0]
    by_cases hany : arr.any Option.isSome = true <;> simp [hany]
